import Mathlib

/-!
# Verification of the DNS server's wire codec and forwarder

Shallow embedding of the Rust sources (`src/dns.rs`, `src/dns/dns_header.rs`,
`src/dns/dns_question.rs`, `src/dns/dns_record.rs`).

Conventions of the embedding:
* byte buffers are `List Nat`, a byte being a natural number below 256
  (the Rust buffers are `&[u8]` / `BytesMut`, so their elements are below 256 by
  typing; predicates below state this bound where a theorem needs it);
* 16-bit and 32-bit machine integers (`u16`, `u32`) are `Nat`s, with an explicit
  `% 65536` / `% 4294967296` wherever the Rust code performs a narrowing `as u16`
  cast that could overflow;
* `BufMut::put_u16` writes the big-endian bytes `v >> 8` and `v & 0xFF` of a
  `u16`; for `v < 65536` these are `v / 256 % 256` and `v % 256`, which is the
  form used here (`putU16`, and `putU32` likewise);
* fallible Rust functions returning `Result<_, &'static str>` become
  `Except String _`, with the source's error strings kept verbatim;
* the name-decoding loop of `DnsQuestion::parse_domain_name` is written with an
  explicit iteration budget ("fuel"); the top-level entry point passes
  `12 * (buffer length + 1)` units, which is proved sufficient (the loop makes
  at most 10 successful compression jumps, and between jumps the position
  strictly increases while staying bounded by the buffer length);
* socket I/O in `DnsMessage::forward_query` is abstracted by a list of
  per-question oracle outcomes: `none` models a failed `send_to`/`recv_from`,
  `some datagram` models a received reply (truncated to the 512-byte receive
  buffer used by the source).
-/

/-- Big-endian write of a 16-bit value (`BufMut::put_u16`): high byte, low byte. -/
def putU16 (v : Nat) : List Nat := [v / 256 % 256, v % 256]

/-- Big-endian write of a 32-bit value (`BufMut::put_u32`). -/
def putU32 (v : Nat) : List Nat :=
  [v / 16777216 % 256, v / 65536 % 256, v / 256 % 256, v % 256]

/-- Big-endian read of a 16-bit value: `((bytes[i] as u16) << 8) | (bytes[i+1] as u16)`.
Out-of-range indices default to 0; every use in the sources is guarded by a length
check, mirroring the Rust bounds discipline. -/
def readU16 (b : List Nat) (i : Nat) : Nat :=
  b.getD i 0 <<< 8 ||| b.getD (i + 1) 0

/-- Big-endian read of a 32-bit value (the `ttl` field of `DnsRecord::from_bytes`). -/
def readU32 (b : List Nat) (i : Nat) : Nat :=
  b.getD i 0 <<< 24 ||| b.getD (i + 1) 0 <<< 16 ||| b.getD (i + 2) 0 <<< 8 ||| b.getD (i + 3) 0

/-- `DnsHeader` (src/dns/dns_header.rs): six 16-bit fields in wire order. -/
structure DnsHeader where
  id : Nat
  flags : Nat
  qdcount : Nat
  ancount : Nat
  nscount : Nat
  arcount : Nat
deriving DecidableEq

/-- `DnsHeader::new`: response-header derivation from a request header. -/
def DnsHeader.new (request_header : DnsHeader) (question_count answer_count : Nat) : DnsHeader :=
  let id := request_header.id
  let opcode := request_header.flags >>> 11 &&& 0xF
  let rd := request_header.flags >>> 8 &&& 0x1
  let rcode := if opcode = 0 then 0 else 4
  let flags := 1 <<< 15 ||| opcode <<< 11 ||| rd <<< 8 ||| rcode
  ⟨id, flags, question_count, answer_count, 0, 0⟩

/-- `DnsHeader::from_bytes`. -/
def DnsHeader.from_bytes (bytes : List Nat) : Except String DnsHeader :=
  if bytes.length < 12 then .error "Header buffer too small"
  else .ok ⟨readU16 bytes 0, readU16 bytes 2, readU16 bytes 4,
            readU16 bytes 6, readU16 bytes 8, readU16 bytes 10⟩

/-- `DnsHeader::to_bytes`. -/
def DnsHeader.to_bytes (h : DnsHeader) : List Nat :=
  putU16 h.id ++ putU16 h.flags ++ putU16 h.qdcount ++
  putU16 h.ancount ++ putU16 h.nscount ++ putU16 h.arcount

/-- The loop body of `DnsQuestion::parse_domain_name`, with an explicit iteration
budget as the first argument (`none` = budget exhausted; see `parse_domain_name`).
The remaining arguments are the loop state of the source: current `position`, the
accumulated `name`, the `jumps` counter (`MAX_JUMPS = 10`), the original
`start_pos`, `first_jump_pos`, and the `is_compressed` flag. -/
def parseDomainNameAux (bytes : List Nat) :
    Nat → Nat → List Nat → Nat → Nat → Nat → Bool →
    Option (Except String (List Nat × Nat))
  | 0, _, _, _, _, _, _ => none
  | fuel + 1, position, name, jumps, start_pos, first_jump_pos, is_compressed =>
    if position ≥ bytes.length then some (.error "Unexpected end of domain name")
    else
      let length := bytes.getD position 0
      if length = 0 then
        some (.ok (name ++ [0],
          if is_compressed then first_jump_pos - start_pos + 2
          else position - start_pos + 1))
      else if length &&& 0xC0 = 0xC0 then
        if position + 1 ≥ bytes.length then some (.error "Incomplete compression pointer")
        else
          let fjp := if is_compressed then first_jump_pos else position
          let offset := (length &&& 0x3F) <<< 8 ||| bytes.getD (position + 1) 0
          if jumps + 1 > 10 then some (.error "Too many compression pointers, possible loop")
          else parseDomainNameAux bytes fuel offset name (jumps + 1) start_pos fjp true
      else
        if position + 1 + length > bytes.length then
          some (.error "Domain name exceeds buffer size")
        else
          parseDomainNameAux bytes fuel (position + 1 + length)
            (name ++ length :: (bytes.drop (position + 1)).take length)
            jumps start_pos first_jump_pos is_compressed

/-- `DnsQuestion::parse_domain_name`: returns the uncompressed name bytes and the
number of bytes consumed at the original position.  The iteration budget
`12 * (bytes.length + 1)` never runs out (the fallback arm is unreachable; this
is proved as the termination claim below). -/
def parse_domain_name (bytes : List Nat) (start_pos : Nat) : Except String (List Nat × Nat) :=
  match parseDomainNameAux bytes (12 * (bytes.length + 1)) start_pos [] 0 start_pos 0 false with
  | some r => r
  | none => .error "Unexpected end of domain name"

/-- `DnsQuestion` (src/dns/dns_question.rs); `class` is renamed `cls`
(`class` is a Lean keyword). -/
structure DnsQuestion where
  name : List Nat
  record_type : Nat
  cls : Nat
deriving DecidableEq

/-- `DnsQuestion::from_bytes`: name, then 16-bit type and class. -/
def DnsQuestion.from_bytes (bytes : List Nat) (start_pos : Nat) :
    Except String (DnsQuestion × Nat) :=
  if bytes.length ≤ start_pos then .error "Buffer too small for question section"
  else
    match parse_domain_name bytes start_pos with
    | .error e => .error e
    | .ok (name, bytes_consumed) =>
      let next_pos := start_pos + bytes_consumed
      if bytes.length < next_pos + 4 then
        .error "Buffer too small for question record type and class"
      else
        .ok (⟨name, readU16 bytes next_pos, readU16 bytes (next_pos + 2)⟩, bytes_consumed + 4)

/-- `DnsQuestion::to_bytes`. -/
def DnsQuestion.to_bytes (q : DnsQuestion) : List Nat :=
  q.name ++ putU16 q.record_type ++ putU16 q.cls

/-- Modelled from the spec: `DnsRecord::from_bytes` calls
`DnsQuestion::parse_name_from`, a function absent from the sources under `src/`
(only the private `parse_domain_name` is present there).  Per spec §4.4 the
record decoder parses the name with the Name Codec decode, i.e. the same
decoder as the question codec. -/
def DnsQuestion.parse_name_from (bytes : List Nat) (start_pos : Nat) :
    Except String (List Nat × Nat) :=
  parse_domain_name bytes start_pos

/-- `DnsRecord` (src/dns/dns_record.rs); `class` renamed `cls` as above. -/
structure DnsRecord where
  name : List Nat
  record_type : Nat
  cls : Nat
  ttl : Nat
  rdata : List Nat
deriving DecidableEq

/-- `DnsRecord::new`: an A record for a domain; `ipv4` is the four octets of the
address (`Ipv4Addr::octets`). -/
def DnsRecord.new (domain_name : List Nat) (ipv4 : List Nat) : DnsRecord :=
  ⟨domain_name, 1, 1, 60, ipv4⟩

/-- `DnsRecord::to_bytes`: name, type, class, ttl, rdlength (= `rdata.len() as u16`),
rdata. -/
def DnsRecord.to_bytes (r : DnsRecord) : List Nat :=
  r.name ++ putU16 r.record_type ++ putU16 r.cls ++ putU32 r.ttl ++
  putU16 (r.rdata.length % 65536) ++ r.rdata

/-- `DnsRecord::from_bytes`: name, 10 fixed bytes (type, class, ttl, rdlength),
then `rdlength` bytes of rdata. -/
def DnsRecord.from_bytes (bytes : List Nat) (start_pos : Nat) :
    Except String (DnsRecord × Nat) :=
  if bytes.length ≤ start_pos then .error "Buffer too small for record"
  else
    match DnsQuestion.parse_name_from bytes start_pos with
    | .error e => .error e
    | .ok (name, name_bytes_consumed) =>
      let record_start := start_pos + name_bytes_consumed
      if bytes.length < record_start + 10 then .error "Buffer too small for record fields"
      else
        let rdlength := readU16 bytes (record_start + 8)
        if bytes.length < record_start + 10 + rdlength then
          .error "Buffer too small for record data"
        else
          .ok (⟨name, readU16 bytes record_start, readU16 bytes (record_start + 2),
                readU32 bytes (record_start + 4),
                (bytes.drop (record_start + 10)).take rdlength⟩,
               name_bytes_consumed + 10 + rdlength)

/-- `DnsMessage` (src/dns.rs). -/
structure DnsMessage where
  header : DnsHeader
  questions : List DnsQuestion
  answers : List DnsRecord
deriving DecidableEq

/-- The question loop of `DnsMessage::from_bytes`: parse exactly `n` questions
from `position`, propagating any error (`?` in the source). -/
def parseQuestions (bytes : List Nat) : Nat → Nat → Except String (List DnsQuestion × Nat)
  | position, 0 => .ok ([], position)
  | position, n + 1 =>
    match DnsQuestion.from_bytes bytes position with
    | .error e => .error e
    | .ok (question, bytes_consumed) =>
      match parseQuestions bytes (position + bytes_consumed) n with
      | .error e => .error e
      | .ok (qs, p) => .ok (question :: qs, p)

/-- The answer loop of `DnsMessage::from_bytes`: parse up to `n` records; on the
first record parse error a warning is printed and the loop `break`s, so the
records decoded so far are kept and no error is propagated. -/
def parseAnswers (bytes : List Nat) : Nat → Nat → List DnsRecord
  | _, 0 => []
  | position, n + 1 =>
    match DnsRecord.from_bytes bytes position with
    | .ok (record, bytes_consumed) => record :: parseAnswers bytes (position + bytes_consumed) n
    | .error _ => []

/-- `DnsMessage::from_bytes`: header, then `qdcount` questions from byte 12,
then up to `ancount` answers (authority/additional sections are ignored). -/
def DnsMessage.from_bytes (bytes : List Nat) : Except String DnsMessage :=
  match DnsHeader.from_bytes bytes with
  | .error e => .error e
  | .ok header =>
    match parseQuestions bytes 12 header.qdcount with
    | .error e => .error e
    | .ok (questions, position) =>
      .ok ⟨header, questions, parseAnswers bytes position header.ancount⟩

/-- The question/answer loop of `DnsMessage::new`: build the `valid_questions`
and `answers` vectors in question order.  The debug `decode_name` call of the
source only feeds a `println!` and is omitted. -/
def buildResponseSections : List DnsQuestion → List DnsQuestion × List DnsRecord
  | [] => ([], [])
  | question :: rest =>
    let (vqs, ans) := buildResponseSections rest
    let record_type :=
      if question.record_type = 1 ∨ question.record_type > 1000 then 1
      else question.record_type
    if record_type = 1 then
      (⟨question.name, 1, 1⟩ :: vqs,
       DnsRecord.new question.name [76, 76, 21, 21] :: ans)
    else (vqs, ans)

/-- `DnsMessage::new`: self-answer response for the given questions.  The
`.len() as u16` casts on the section counts are the `% 65536`. -/
def DnsMessage.new (request_header : DnsHeader) (questions : List DnsQuestion) : DnsMessage :=
  let sections := buildResponseSections questions
  ⟨DnsHeader.new request_header (sections.1.length % 65536) (sections.2.length % 65536),
   sections.1, sections.2⟩

/-- `DnsMessage::new_response_from_request`. -/
def DnsMessage.new_response_from_request (request : DnsMessage) : DnsMessage :=
  DnsMessage.new request.header request.questions

/-- `DnsMessage::to_bytes`: header, then all questions, then all answers. -/
def DnsMessage.to_bytes (m : DnsMessage) : List Nat :=
  m.header.to_bytes ++ (m.questions.map DnsQuestion.to_bytes).flatten ++
  (m.answers.map DnsRecord.to_bytes).flatten

/-- `DnsMessage::to_forwarded_request_bytes`: id, flags with QR cleared
(`flags & 0x7FFF`), qdcount, three zero counts, then all questions (never the
answers). -/
def DnsMessage.to_forwarded_request_bytes (m : DnsMessage) : List Nat :=
  putU16 m.header.id ++ putU16 (m.header.flags &&& 0x7FFF) ++ putU16 m.header.qdcount ++
  putU16 0 ++ putU16 0 ++ putU16 0 ++ (m.questions.map DnsQuestion.to_bytes).flatten

/-- The single-question request built for each sub-query in the split branch of
`DnsMessage::forward_query`. -/
def singleQuestionRequest (request : DnsMessage) (question : DnsQuestion) : DnsMessage :=
  ⟨⟨request.header.id, request.header.flags &&& 0x7FFF, 1, 0, 0, 0⟩, [question], []⟩

/-- One iteration of the split-mode loop of `DnsMessage::forward_query`, given
the oracle outcome of the socket exchange for this question: on send/recv
failure (`none`) or reply decode failure, no answers are contributed; otherwise
all answers of the decoded reply are appended.  The reply datagram is read
through the 512-byte receive buffer of the source. -/
def subQueryAnswers (reply : Option (List Nat)) : List DnsRecord :=
  match reply with
  | none => []
  | some datagram =>
    match DnsMessage.from_bytes (datagram.take 512) with
    | .ok response => response.answers
    | .error _ => []

/-- The answers collected over the split-mode loop, in question order. -/
def collectAnswers : List DnsQuestion → List (Option (List Nat)) → List DnsRecord
  | [], _ => []
  | _, [] => []
  | _question :: qs, reply :: rs => subQueryAnswers reply ++ collectAnswers qs rs

/-- The split branch of `DnsMessage::forward_query` (taken when the request has
more than one question), lines 202-272 of src/dns.rs, with socket I/O
abstracted by `replies`.  The combined response template carries the original
id and qdcount, `flags = 0x8000`, and the original questions; after the loop
`ancount` is set to `answers.len() as u16` and an empty answer list is the
`NoUpstreamAnswers` failure. -/
def DnsMessage.forward_query_split (request : DnsMessage)
    (replies : List (Option (List Nat))) : Except String DnsMessage :=
  let answers := collectAnswers request.questions replies
  if answers.isEmpty then .error "Failed to get any answers for the split queries"
  else
    .ok ⟨⟨request.header.id, 0x8000, request.header.qdcount, answers.length % 65536, 0, 0⟩,
         request.questions, answers⟩

/-- Well-formed uncompressed name: a sequence of labels, each a length byte
between 1 and 63 followed by that many bytes, terminated by a single zero
byte. -/
inductive WfName : List Nat → Prop
  | nil : WfName [0]
  | cons (len : Nat) (label rest : List Nat) :
      1 ≤ len → len ≤ 63 → label.length = len → (∀ b ∈ label, b < 256) →
      WfName rest → WfName (len :: (label ++ rest))

/-- The `u16` typing of the six header fields. -/
def wfHeader (h : DnsHeader) : Prop :=
  h.id < 65536 ∧ h.flags < 65536 ∧ h.qdcount < 65536 ∧
  h.ancount < 65536 ∧ h.nscount < 65536 ∧ h.arcount < 65536

instance (h : DnsHeader) : Decidable (wfHeader h) := by unfold wfHeader; infer_instance

/-- A question whose name is a well-formed pointer-free label sequence and whose
type and class carry their `u16` typing. -/
def wfQuestion (q : DnsQuestion) : Prop :=
  WfName q.name ∧ q.record_type < 65536 ∧ q.cls < 65536

/-- An A record (type 1, four rdata bytes) with a well-formed pointer-free name
and the `u16`/`u32` typing of its fields. -/
def wfARecord (r : DnsRecord) : Prop :=
  WfName r.name ∧ r.record_type = 1 ∧ r.cls < 65536 ∧ r.ttl < 4294967296 ∧
  r.rdata.length = 4

/-- A message as in claim C1: well-typed header whose counts match the sections,
pointer-free well-formed names, and A-record answers. -/
def wfMessage (m : DnsMessage) : Prop :=
  wfHeader m.header ∧ m.header.qdcount = m.questions.length ∧
  m.header.ancount = m.answers.length ∧
  (∀ q ∈ m.questions, wfQuestion q) ∧ (∀ r ∈ m.answers, wfARecord r)

/-! ## Arithmetic of the big-endian reads and writes -/

lemma lor_mul_two_pow_eq_add (n : Nat) :
    ∀ a b : Nat, b < 2 ^ n → a * 2 ^ n ||| b = a * 2 ^ n + b := by
  induction n with
  | zero =>
    intro a b hb
    interval_cases b
    simp
  | succ n ih =>
    intro a b hb
    have hpow : 2 ^ (n + 1) = 2 ^ n * 2 := pow_succ 2 n
    have hb2 : b / 2 < 2 ^ n := by omega
    have hbit : Nat.bit (decide (b % 2 = 1)) (b / 2) = b := by
      have h := Nat.bit_decide_mod_two_eq_one_shiftRight_one b
      simpa [Nat.shiftRight_one] using h
    have hleft : a * 2 ^ (n + 1) = Nat.bit false (a * 2 ^ n) := by
      simp [Nat.bit_val, hpow]; ring
    rw [← hbit, hleft, Nat.lor_bit]
    have hrec := ih a (b / 2) hb2
    simp only [Bool.false_or, hrec, Nat.bit_val]
    rcases Nat.mod_two_eq_zero_or_one b with h2 | h2 <;> simp [h2] <;> omega

lemma lor_shiftLeft8_eq_add (x y : Nat) (hy : y < 256) : x <<< 8 ||| y = 256 * x + y := by
  rw [Nat.shiftLeft_eq]
  have h := lor_mul_two_pow_eq_add 8 x y (by norm_num; omega)
  norm_num at h ⊢
  omega

lemma lor_shiftLeft16_eq_add (x y : Nat) (hy : y < 65536) : x <<< 16 ||| y = 65536 * x + y := by
  rw [Nat.shiftLeft_eq]
  have h := lor_mul_two_pow_eq_add 16 x y (by norm_num; omega)
  norm_num at h ⊢
  omega

lemma lor_shiftLeft24_eq_add (x y : Nat) (hy : y < 16777216) :
    x <<< 24 ||| y = 16777216 * x + y := by
  rw [Nat.shiftLeft_eq]
  have h := lor_mul_two_pow_eq_add 24 x y (by norm_num; omega)
  norm_num at h ⊢
  omega

lemma getD_of_drop_cons {b : List Nat} {i x : Nat} {t : List Nat} (h : b.drop i = x :: t) :
    b.getD i 0 = x := by
  have h0 : (b.drop i)[0]? = some x := by rw [h]; simp
  rw [List.getElem?_drop] at h0
  simp only [List.getD_eq_getElem?_getD]
  simp at h0
  simp [h0]

lemma drop_succ_of_drop_cons {b : List Nat} {i x : Nat} {t : List Nat} (h : b.drop i = x :: t) :
    b.drop (i + 1) = t := by
  have hd := List.drop_drop 1 i b
  rw [← hd, h]
  simp

lemma readU16_of_drop_putU16 {b : List Nat} {i v : Nat} {t : List Nat}
    (h : b.drop i = putU16 v ++ t) : readU16 b i = v % 65536 := by
  have h' : b.drop i = v / 256 % 256 :: v % 256 :: t := by simpa [putU16] using h
  have h0 := getD_of_drop_cons h'
  have h1 := getD_of_drop_cons (drop_succ_of_drop_cons h')
  unfold readU16
  rw [h0, h1, lor_shiftLeft8_eq_add _ _ (by omega)]
  omega

lemma readU32_of_drop_putU32 {b : List Nat} {i v : Nat} {t : List Nat}
    (h : b.drop i = putU32 v ++ t) : readU32 b i = v % 4294967296 := by
  have h' : b.drop i = v / 16777216 % 256 :: v / 65536 % 256 :: v / 256 % 256 :: v % 256 :: t := by
    simpa [putU32] using h
  have h0 := getD_of_drop_cons h'
  have hd1 := drop_succ_of_drop_cons h'
  have h1 := getD_of_drop_cons hd1
  have hd2 := drop_succ_of_drop_cons hd1
  have h2 := getD_of_drop_cons hd2
  have h3 := getD_of_drop_cons (drop_succ_of_drop_cons hd2)
  unfold readU32
  rw [h0, h1, h2, h3]
  rw [lor_shiftLeft24_eq_add _ _ (by rw [Nat.shiftLeft_eq]; norm_num; omega)]
  rw [show 16777216 * (v / 16777216 % 256) + (v / 65536 % 256) <<< 16
      = (256 * (v / 16777216 % 256) + v / 65536 % 256) <<< 16 from by
    rw [Nat.shiftLeft_eq, Nat.shiftLeft_eq]; ring]
  rw [lor_shiftLeft16_eq_add _ _ (by rw [Nat.shiftLeft_eq]; norm_num; omega)]
  rw [show 65536 * (256 * (v / 16777216 % 256) + v / 65536 % 256) + (v / 256 % 256) <<< 8
      = (256 * (256 * (v / 16777216 % 256) + v / 65536 % 256) + v / 256 % 256) <<< 8 from by
    rw [Nat.shiftLeft_eq, Nat.shiftLeft_eq]; ring]
  rw [lor_shiftLeft8_eq_add _ _ (by omega)]
  omega

/-! ## Facts about the name decoder -/

lemma WfName.one_le_length {nm : List Nat} (h : WfName nm) : 1 ≤ nm.length := by
  cases h <;> simp

/-- Decoding a well-formed pointer-free name laid out at position `p` of the
buffer succeeds, appends exactly the name to the accumulator, and consumes up
to the end of the name (counted from the original start `s`).  Stated at the
loop level with any sufficient iteration budget. -/
lemma parseAux_wfname {nm : List Nat} (h : WfName nm) :
    ∀ (bytes : List Nat) (p : Nat) (acc : List Nat) (jumps s f fuel : Nat) (t : List Nat),
      bytes.drop p = nm ++ t → s ≤ p → nm.length ≤ fuel →
      parseDomainNameAux bytes fuel p acc jumps s f false
        = some (.ok (acc ++ nm, p + nm.length - s)) := by
  induction h with
  | nil =>
    intro bytes p acc jumps s f fuel t hdrop hs hfuel
    obtain ⟨fuel, rfl⟩ : ∃ k, fuel = k + 1 := ⟨fuel - 1, by simp at hfuel; omega⟩
    have hdrop' : bytes.drop p = 0 :: t := by simpa using hdrop
    have hlendrop : bytes.length - p = 1 + t.length := by
      have hc := congrArg List.length hdrop'
      simp [List.length_drop] at hc
      omega
    have hgd : bytes.getD p 0 = 0 := getD_of_drop_cons hdrop'
    simp only [parseDomainNameAux, hgd]
    rw [if_neg (show ¬ p ≥ bytes.length by omega)]
    norm_num
    omega
  | cons len label rest h1 h63 hlen hbytes hrest ih =>
    intro bytes p acc jumps s f fuel t hdrop hs hfuel
    obtain ⟨fuel, rfl⟩ : ∃ k, fuel = k + 1 :=
      ⟨fuel - 1, by simp at hfuel; omega⟩
    have hdrop' : bytes.drop p = len :: (label ++ (rest ++ t)) := by simpa using hdrop
    have hlendrop : bytes.length - p = 1 + label.length + rest.length + t.length := by
      have hc := congrArg List.length hdrop'
      simp [List.length_drop] at hc
      omega
    have hrl := hrest.one_le_length
    have hgd : bytes.getD p 0 = len := getD_of_drop_cons hdrop'
    have hnp : ¬ (len &&& 0xC0 = 0xC0) := by
      intro hc
      have h192 : 192 ≤ len := by
        calc (192 : Nat) = len &&& 192 := hc.symm
        _ ≤ len := Nat.and_le_left
      omega
    have hd1 : bytes.drop (p + 1) = label ++ (rest ++ t) := drop_succ_of_drop_cons hdrop'
    have htake : (bytes.drop (p + 1)).take len = label := by
      rw [hd1]; exact List.take_left' hlen
    have hd2 : bytes.drop (p + 1 + len) = rest ++ t := by
      have hdd := List.drop_drop len (p + 1) bytes
      rw [← hdd, hd1, List.drop_left' hlen]
    have hfuel' : rest.length ≤ fuel := by
      simp [List.length_append] at hfuel
      omega
    simp only [parseDomainNameAux]
    rw [if_neg (by omega)]
    simp only [hgd]
    rw [if_neg (by omega), if_neg hnp, if_neg (by omega)]
    rw [htake]
    rw [ih bytes (p + 1 + len) (acc ++ len :: label) jumps s f fuel t hd2 (by omega) hfuel']
    simp only [Option.some.injEq, Except.ok.injEq, Prod.mk.injEq]
    constructor
    · simp
    · simp [List.length_append]
      omega

/-- Running the loop with a larger iteration budget cannot change an outcome
already reached: each loop iteration consumes exactly one unit. -/
lemma parseAux_fuel_mono :
    ∀ (fuel fuel' : Nat), fuel ≤ fuel' →
    ∀ (bytes : List Nat) (p : Nat) (acc : List Nat) (j s f : Nat) (cp : Bool)
      (r : Except String (List Nat × Nat)),
      parseDomainNameAux bytes fuel p acc j s f cp = some r →
      parseDomainNameAux bytes fuel' p acc j s f cp = some r := by
  intro fuel
  induction fuel with
  | zero =>
    intro fuel' _ bytes p acc j s f cp r h
    simp [parseDomainNameAux] at h
  | succ fuel ih =>
    intro fuel' hle bytes p acc j s f cp r h
    obtain ⟨fuel', rfl⟩ : ∃ k, fuel' = k + 1 := ⟨fuel' - 1, by omega⟩
    simp only [parseDomainNameAux] at h ⊢
    by_cases h1 : p ≥ bytes.length
    · rw [if_pos h1] at h ⊢; exact h
    · rw [if_neg h1] at h ⊢
      by_cases h2 : bytes.getD p 0 = 0
      · rw [if_pos h2] at h ⊢; exact h
      · rw [if_neg h2] at h ⊢
        by_cases h3 : bytes.getD p 0 &&& 0xC0 = 0xC0
        · rw [if_pos h3] at h ⊢
          by_cases h4 : p + 1 ≥ bytes.length
          · rw [if_pos h4] at h ⊢; exact h
          · rw [if_neg h4] at h ⊢
            by_cases h5 : j + 1 > 10
            · rw [if_pos h5] at h ⊢; exact h
            · rw [if_neg h5] at h ⊢
              exact ih fuel' (by omega) bytes _ acc _ s _ true r h
        · rw [if_neg h3] at h ⊢
          by_cases h6 : p + 1 + bytes.getD p 0 > bytes.length
          · rw [if_pos h6] at h ⊢; exact h
          · rw [if_neg h6] at h ⊢
            exact ih fuel' (by omega) bytes _ _ j s f cp r h

/-- A returned error can never equal a returned success. -/
lemma some_error_ne_some_ok {e : String} {v : List Nat × Nat}
    (h : some (Except.error e) = (some (Except.ok v) : Option (Except String (List Nat × Nat)))) :
    False := by
  injection h with h2
  injection h2

/-- Once a compression pointer has been taken (`is_compressed = true` with first
jump at `f`), a successful decode always reports `f - start + 2` consumed bytes:
the two-byte pointer is the extent of the name in the original stream. -/
lemma parseAux_consumed_compressed :
    ∀ (fuel : Nat) (bytes : List Nat) (p : Nat) (acc : List Nat) (j s f : Nat)
      (nm : List Nat) (c : Nat),
      parseDomainNameAux bytes fuel p acc j s f true = some (.ok (nm, c)) →
      c = f - s + 2 := by
  intro fuel
  induction fuel with
  | zero =>
    intro bytes p acc j s f nm c h
    simp [parseDomainNameAux] at h
  | succ fuel ih =>
    intro bytes p acc j s f nm c h
    simp only [parseDomainNameAux] at h
    by_cases h1 : p ≥ bytes.length
    · rw [if_pos h1] at h; exact (some_error_ne_some_ok h).elim
    · rw [if_neg h1] at h
      by_cases h2 : bytes.getD p 0 = 0
      · rw [if_pos h2] at h
        simp at h
        exact h.2.symm
      · rw [if_neg h2] at h
        by_cases h3 : bytes.getD p 0 &&& 0xC0 = 0xC0
        · rw [if_pos h3] at h
          by_cases h4 : p + 1 ≥ bytes.length
          · rw [if_pos h4] at h; exact (some_error_ne_some_ok h).elim
          · rw [if_neg h4] at h
            by_cases h5 : j + 1 > 10
            · rw [if_pos h5] at h; exact (some_error_ne_some_ok h).elim
            · rw [if_neg h5] at h
              exact ih bytes _ acc _ s f nm c h
        · rw [if_neg h3] at h
          by_cases h6 : p + 1 + bytes.getD p 0 > bytes.length
          · rw [if_pos h6] at h; exact (some_error_ne_some_ok h).elim
          · rw [if_neg h6] at h
            exact ih bytes _ _ j s f nm c h

/-- The decoded name bytes do not depend on the jump counter (as long as it is
not larger), the recorded start, the first-jump position or the compression
flag: a successful run still succeeds, with the same name, after replacing
them. -/
lemma parseAux_name_invariant :
    ∀ (fuel : Nat) (bytes : List Nat) (p : Nat) (acc : List Nat) (j s f : Nat) (cp : Bool)
      (nm : List Nat) (c : Nat),
      parseDomainNameAux bytes fuel p acc j s f cp = some (.ok (nm, c)) →
      ∀ (j' s' f' : Nat) (cp' : Bool), j' ≤ j →
        ∃ c', parseDomainNameAux bytes fuel p acc j' s' f' cp' = some (.ok (nm, c')) := by
  intro fuel
  induction fuel with
  | zero =>
    intro bytes p acc j s f cp nm c h
    simp [parseDomainNameAux] at h
  | succ fuel ih =>
    intro bytes p acc j s f cp nm c h j' s' f' cp' hj
    simp only [parseDomainNameAux] at h ⊢
    by_cases h1 : p ≥ bytes.length
    · rw [if_pos h1] at h; exact (some_error_ne_some_ok h).elim
    · rw [if_neg h1] at h
      rw [if_neg h1]
      by_cases h2 : bytes.getD p 0 = 0
      · rw [if_pos h2] at h
        rw [if_pos h2]
        simp at h
        obtain ⟨hnm, -⟩ := h
        subst hnm
        exact ⟨_, rfl⟩
      · rw [if_neg h2] at h
        rw [if_neg h2]
        by_cases h3 : bytes.getD p 0 &&& 0xC0 = 0xC0
        · rw [if_pos h3] at h
          rw [if_pos h3]
          by_cases h4 : p + 1 ≥ bytes.length
          · rw [if_pos h4] at h; exact (some_error_ne_some_ok h).elim
          · rw [if_neg h4] at h
            rw [if_neg h4]
            by_cases h5 : j + 1 > 10
            · rw [if_pos h5] at h; exact (some_error_ne_some_ok h).elim
            · rw [if_neg h5] at h
              rw [if_neg (show ¬ j' + 1 > 10 by omega)]
              obtain ⟨c', hc'⟩ := ih bytes _ acc _ s (if cp then f else p) true nm c h
                (j' + 1) s' (if cp' then f' else p) true (by omega)
              exact ⟨c', hc'⟩
        · rw [if_neg h3] at h
          rw [if_neg h3]
          by_cases h6 : p + 1 + bytes.getD p 0 > bytes.length
          · rw [if_pos h6] at h; exact (some_error_ne_some_ok h).elim
          · rw [if_neg h6] at h
            rw [if_neg h6]
            exact ih bytes _ _ j s f cp nm c h j' s' f' cp' hj

/-- The loop always finishes within its budget: with `j ≤ 10` jumps already
taken, `(11 - j) * (|bytes| + 1) + (|bytes| + 1 - p)` iterations suffice, since
a label step strictly advances the position (bounded by the buffer length) and
at most `10 - j` further jumps can be taken before the jump guard fails. -/
lemma parseAux_isSome :
    ∀ (fuel : Nat) (bytes : List Nat) (p : Nat) (acc : List Nat) (j s f : Nat) (cp : Bool),
      j ≤ 10 → (11 - j) * (bytes.length + 1) + (bytes.length + 1 - p) ≤ fuel →
      ∃ r, parseDomainNameAux bytes fuel p acc j s f cp = some r := by
  intro fuel
  induction fuel with
  | zero =>
    intro bytes p acc j s f cp hj hb
    have hmul : 1 * (bytes.length + 1) ≤ (11 - j) * (bytes.length + 1) :=
      Nat.mul_le_mul_right _ (by omega)
    omega
  | succ fuel ih =>
    intro bytes p acc j s f cp hj hb
    simp only [parseDomainNameAux]
    by_cases h1 : p ≥ bytes.length
    · rw [if_pos h1]; exact ⟨_, rfl⟩
    · rw [if_neg h1]
      by_cases h2 : bytes.getD p 0 = 0
      · rw [if_pos h2]; exact ⟨_, rfl⟩
      · rw [if_neg h2]
        by_cases h3 : bytes.getD p 0 &&& 0xC0 = 0xC0
        · rw [if_pos h3]
          by_cases h4 : p + 1 ≥ bytes.length
          · rw [if_pos h4]; exact ⟨_, rfl⟩
          · rw [if_neg h4]
            by_cases h5 : j + 1 > 10
            · rw [if_pos h5]; exact ⟨_, rfl⟩
            · rw [if_neg h5]
              refine ih bytes _ acc (j + 1) s _ true (by omega) ?_
              have e : (11 - j) * (bytes.length + 1)
                  = (11 - (j + 1)) * (bytes.length + 1) + (bytes.length + 1) := by
                have e11 : 11 - j = (11 - (j + 1)) + 1 := by omega
                rw [e11]; ring
              omega
        · rw [if_neg h3]
          by_cases h6 : p + 1 + bytes.getD p 0 > bytes.length
          · rw [if_pos h6]; exact ⟨_, rfl⟩
          · rw [if_neg h6]
            refine ih bytes _ _ j s f cp hj ?_
            omega

/-- Transfer from the loop to `parse_domain_name`. -/
lemma parse_domain_name_eq_of_aux {bytes : List Nat} {p : Nat}
    {r : Except String (List Nat × Nat)}
    (h : parseDomainNameAux bytes (12 * (bytes.length + 1)) p [] 0 p 0 false = some r) :
    parse_domain_name bytes p = r := by
  unfold parse_domain_name
  rw [h]

/-- Decoding a well-formed pointer-free name laid out at position `p` returns
exactly the name and consumes exactly its length. -/
lemma parse_domain_name_of_wfname {nm bytes t : List Nat} {p : Nat}
    (h : WfName nm) (hdrop : bytes.drop p = nm ++ t) :
    parse_domain_name bytes p = .ok (nm, nm.length) := by
  have hc := congrArg List.length hdrop
  simp [List.length_drop] at hc
  have h1 := parseAux_wfname h bytes p [] 0 p 0 nm.length t hdrop le_rfl le_rfl
  have h2 := parseAux_fuel_mono nm.length (12 * (bytes.length + 1)) (by omega)
    bytes p [] 0 p 0 false _ h1
  have h3 := parse_domain_name_eq_of_aux h2
  simpa using h3

/-! ## Round trip of the codecs -/

lemma putU16_length (v : Nat) : (putU16 v).length = 2 := by simp [putU16]

lemma putU32_length (v : Nat) : (putU32 v).length = 4 := by simp [putU32]

lemma question_to_bytes_length (q : DnsQuestion) :
    q.to_bytes.length = q.name.length + 4 := by
  simp [DnsQuestion.to_bytes, putU16]

/-- Parsing a serialized question embedded at position `|pre|` recovers the
question and consumes its wire size. -/
lemma question_from_bytes_of_to_bytes (q : DnsQuestion) (pre post : List Nat)
    (hq : wfQuestion q) :
    DnsQuestion.from_bytes (pre ++ q.to_bytes ++ post) pre.length
      = .ok (q, q.name.length + 4) := by
  obtain ⟨qname, qtype, qcls⟩ := q
  obtain ⟨hwf, ht, hc⟩ := hq
  simp only at hwf ht hc
  have hnl := hwf.one_le_length
  set b := pre ++ DnsQuestion.to_bytes ⟨qname, qtype, qcls⟩ ++ post with hb
  have hlenb : b.length = pre.length + (qname.length + 4) + post.length := by
    simp [hb, DnsQuestion.to_bytes, putU16]
    omega
  have hd0 : b.drop pre.length
      = qname ++ (putU16 qtype ++ (putU16 qcls ++ post)) := by
    calc b.drop pre.length
        = (pre ++ (DnsQuestion.to_bytes ⟨qname, qtype, qcls⟩ ++ post)).drop pre.length := by
          rw [hb, List.append_assoc]
    _ = DnsQuestion.to_bytes ⟨qname, qtype, qcls⟩ ++ post := List.drop_left _ _
    _ = qname ++ (putU16 qtype ++ (putU16 qcls ++ post)) := by
          simp [DnsQuestion.to_bytes]
  have hname := parse_domain_name_of_wfname hwf hd0
  have hdt : b.drop (pre.length + qname.length)
      = putU16 qtype ++ (putU16 qcls ++ post) := by
    have hdd := List.drop_drop qname.length pre.length b
    rw [← hdd, hd0, List.drop_left]
  have hdc : b.drop (pre.length + qname.length + 2) = putU16 qcls ++ post := by
    have hdd := List.drop_drop 2 (pre.length + qname.length) b
    rw [← hdd, hdt, List.drop_left' (putU16_length qtype)]
  unfold DnsQuestion.from_bytes
  rw [if_neg (by omega)]
  simp only [hname]
  rw [if_neg (by omega)]
  rw [readU16_of_drop_putU16 hdt, readU16_of_drop_putU16 hdc]
  rw [Nat.mod_eq_of_lt ht, Nat.mod_eq_of_lt hc]

lemma record_to_bytes_length (r : DnsRecord) :
    r.to_bytes.length = r.name.length + 10 + r.rdata.length := by
  simp [DnsRecord.to_bytes, putU16, putU32]
  omega

/-- Parsing a serialized A record embedded at position `|pre|` recovers the
record and consumes its wire size. -/
lemma record_from_bytes_of_to_bytes (r : DnsRecord) (pre post : List Nat)
    (hr : wfARecord r) :
    DnsRecord.from_bytes (pre ++ r.to_bytes ++ post) pre.length
      = .ok (r, r.name.length + 10 + r.rdata.length) := by
  obtain ⟨rname, rtype, rcls, rttl, rdata⟩ := r
  obtain ⟨hwf, hrt, hc, httl, hlen4⟩ := hr
  simp only at hwf hrt hc httl hlen4
  subst hrt
  have hnl := hwf.one_le_length
  set b := pre ++ DnsRecord.to_bytes ⟨rname, 1, rcls, rttl, rdata⟩ ++ post with hb
  have hlenb : b.length = pre.length + (rname.length + 10 + rdata.length) + post.length := by
    simp [hb, DnsRecord.to_bytes, putU16, putU32]
    omega
  have hd0 : b.drop pre.length
      = rname ++ (putU16 1 ++ (putU16 rcls ++ (putU32 rttl ++
          (putU16 (rdata.length % 65536) ++ (rdata ++ post))))) := by
    calc b.drop pre.length
        = (pre ++ (DnsRecord.to_bytes ⟨rname, 1, rcls, rttl, rdata⟩ ++ post)).drop pre.length := by
          rw [hb, List.append_assoc]
    _ = DnsRecord.to_bytes ⟨rname, 1, rcls, rttl, rdata⟩ ++ post := List.drop_left _ _
    _ = _ := by simp [DnsRecord.to_bytes]
  have hname := parse_domain_name_of_wfname hwf hd0
  have hd1 : b.drop (pre.length + rname.length)
      = putU16 1 ++ (putU16 rcls ++ (putU32 rttl ++
          (putU16 (rdata.length % 65536) ++ (rdata ++ post)))) := by
    have hdd := List.drop_drop rname.length pre.length b
    rw [← hdd, hd0, List.drop_left]
  have hd2 : b.drop (pre.length + rname.length + 2)
      = putU16 rcls ++ (putU32 rttl ++ (putU16 (rdata.length % 65536) ++ (rdata ++ post))) := by
    have hdd := List.drop_drop 2 (pre.length + rname.length) b
    rw [← hdd, hd1, List.drop_left' (putU16_length 1)]
  have hd4 : b.drop (pre.length + rname.length + 4)
      = putU32 rttl ++ (putU16 (rdata.length % 65536) ++ (rdata ++ post)) := by
    have hdd := List.drop_drop 2 (pre.length + rname.length + 2) b
    rw [show pre.length + rname.length + 2 + 2 = pre.length + rname.length + 4 from rfl] at hdd
    rw [← hdd, hd2, List.drop_left' (putU16_length rcls)]
  have hd8 : b.drop (pre.length + rname.length + 8)
      = putU16 (rdata.length % 65536) ++ (rdata ++ post) := by
    have hdd := List.drop_drop 4 (pre.length + rname.length + 4) b
    rw [show pre.length + rname.length + 4 + 4 = pre.length + rname.length + 8 from rfl] at hdd
    rw [← hdd, hd4, List.drop_left' (putU32_length rttl)]
  have hd10 : b.drop (pre.length + rname.length + 10) = rdata ++ post := by
    have hdd := List.drop_drop 2 (pre.length + rname.length + 8) b
    rw [show pre.length + rname.length + 8 + 2 = pre.length + rname.length + 10 from rfl] at hdd
    rw [← hdd, hd8, List.drop_left' (putU16_length _)]
  unfold DnsRecord.from_bytes DnsQuestion.parse_name_from
  rw [if_neg (by omega)]
  simp only [hname]
  rw [if_neg (by omega)]
  rw [readU16_of_drop_putU16 hd8]
  rw [show rdata.length % 65536 % 65536 = rdata.length from by omega]
  rw [if_neg (by omega)]
  rw [readU16_of_drop_putU16 hd1, readU16_of_drop_putU16 hd2, readU32_of_drop_putU32 hd4]
  rw [Nat.mod_eq_of_lt hc, Nat.mod_eq_of_lt httl]
  rw [hd10, List.take_left' rfl]

lemma header_to_bytes_length (h : DnsHeader) : h.to_bytes.length = 12 := by
  simp [DnsHeader.to_bytes, putU16]

/-- Parsing a header from its serialization (followed by anything) recovers it. -/
lemma header_from_bytes_of_to_bytes (h : DnsHeader) (rest : List Nat) (hwf : wfHeader h) :
    DnsHeader.from_bytes (h.to_bytes ++ rest) = .ok h := by
  obtain ⟨i, fl, qd, an, ns, ar⟩ := h
  simp only [wfHeader] at hwf
  obtain ⟨h1, h2, h3, h4, h5, h6⟩ := hwf
  set b := DnsHeader.to_bytes ⟨i, fl, qd, an, ns, ar⟩ ++ rest with hb
  have hb' : b = putU16 i ++ (putU16 fl ++ (putU16 qd ++ (putU16 an ++
      (putU16 ns ++ (putU16 ar ++ rest))))) := by
    simp [hb, DnsHeader.to_bytes, List.append_assoc]
  have hlenb : b.length = 12 + rest.length := by
    simp [hb', putU16]
    omega
  have hd0 : b.drop 0 = putU16 i ++ (putU16 fl ++ (putU16 qd ++ (putU16 an ++
      (putU16 ns ++ (putU16 ar ++ rest))))) := by
    rw [List.drop_zero, hb']
  have hd2 : b.drop 2 = putU16 fl ++ (putU16 qd ++ (putU16 an ++
      (putU16 ns ++ (putU16 ar ++ rest)))) := by
    rw [hb']; exact List.drop_left' (putU16_length i)
  have hd4 : b.drop 4 = putU16 qd ++ (putU16 an ++ (putU16 ns ++ (putU16 ar ++ rest))) := by
    have hdd := List.drop_drop 2 2 b
    rw [show (2 + 2 : Nat) = 4 from rfl] at hdd
    rw [← hdd, hd2, List.drop_left' (putU16_length fl)]
  have hd6 : b.drop 6 = putU16 an ++ (putU16 ns ++ (putU16 ar ++ rest)) := by
    have hdd := List.drop_drop 2 4 b
    rw [show (4 + 2 : Nat) = 6 from rfl] at hdd
    rw [← hdd, hd4, List.drop_left' (putU16_length qd)]
  have hd8 : b.drop 8 = putU16 ns ++ (putU16 ar ++ rest) := by
    have hdd := List.drop_drop 2 6 b
    rw [show (6 + 2 : Nat) = 8 from rfl] at hdd
    rw [← hdd, hd6, List.drop_left' (putU16_length an)]
  have hd10 : b.drop 10 = putU16 ar ++ rest := by
    have hdd := List.drop_drop 2 8 b
    rw [show (8 + 2 : Nat) = 10 from rfl] at hdd
    rw [← hdd, hd8, List.drop_left' (putU16_length ns)]
  unfold DnsHeader.from_bytes
  rw [if_neg (by omega)]
  rw [readU16_of_drop_putU16 hd0, readU16_of_drop_putU16 hd2, readU16_of_drop_putU16 hd4,
      readU16_of_drop_putU16 hd6, readU16_of_drop_putU16 hd8, readU16_of_drop_putU16 hd10]
  rw [Nat.mod_eq_of_lt h1, Nat.mod_eq_of_lt h2, Nat.mod_eq_of_lt h3,
      Nat.mod_eq_of_lt h4, Nat.mod_eq_of_lt h5, Nat.mod_eq_of_lt h6]

/-- The question loop of the message decoder inverts serialization of a question
list laid out at position `|pre|`. -/
lemma parseQuestions_of_to_bytes :
    ∀ (qs : List DnsQuestion) (pre post : List Nat), (∀ q ∈ qs, wfQuestion q) →
      parseQuestions (pre ++ (qs.map DnsQuestion.to_bytes).flatten ++ post) pre.length qs.length
        = .ok (qs, pre.length + ((qs.map DnsQuestion.to_bytes).flatten).length) := by
  intro qs
  induction qs with
  | nil =>
    intro pre post h
    simp [parseQuestions]
  | cons q qs ih =>
    intro pre post h
    have hq := h q (by simp)
    have hqs : ∀ x ∈ qs, wfQuestion x := fun x hx => h x (by simp [hx])
    simp only [List.map_cons, List.flatten_cons, List.length_cons]
    rw [show pre ++ (q.to_bytes ++ (qs.map DnsQuestion.to_bytes).flatten) ++ post
        = pre ++ q.to_bytes ++ ((qs.map DnsQuestion.to_bytes).flatten ++ post) from by
      simp [List.append_assoc]]
    simp only [parseQuestions]
    simp only [question_from_bytes_of_to_bytes q pre
      ((qs.map DnsQuestion.to_bytes).flatten ++ post) hq]
    have hpre : pre.length + (q.name.length + 4) = (pre ++ q.to_bytes).length := by
      simp [question_to_bytes_length]
    rw [hpre]
    have hrec := ih (pre ++ q.to_bytes) post hqs
    rw [List.append_assoc (pre ++ q.to_bytes)
      ((qs.map DnsQuestion.to_bytes).flatten) post] at hrec
    rw [hrec]
    simp only [Except.ok.injEq, Prod.mk.injEq, List.length_append, true_and]
    omega

/-- The answer loop of the message decoder inverts serialization of an A-record
list laid out at position `|pre|`. -/
lemma parseAnswers_of_to_bytes :
    ∀ (rs : List DnsRecord) (pre post : List Nat), (∀ r ∈ rs, wfARecord r) →
      parseAnswers (pre ++ (rs.map DnsRecord.to_bytes).flatten ++ post) pre.length rs.length
        = rs := by
  intro rs
  induction rs with
  | nil =>
    intro pre post h
    simp [parseAnswers]
  | cons r rs ih =>
    intro pre post h
    have hr := h r (by simp)
    have hrs : ∀ x ∈ rs, wfARecord x := fun x hx => h x (by simp [hx])
    simp only [List.map_cons, List.flatten_cons, List.length_cons]
    rw [show pre ++ (r.to_bytes ++ (rs.map DnsRecord.to_bytes).flatten) ++ post
        = pre ++ r.to_bytes ++ ((rs.map DnsRecord.to_bytes).flatten ++ post) from by
      simp [List.append_assoc]]
    simp only [parseAnswers]
    simp only [record_from_bytes_of_to_bytes r pre
      ((rs.map DnsRecord.to_bytes).flatten ++ post) hr]
    have hpre : pre.length + (r.name.length + 10 + r.rdata.length)
        = (pre ++ r.to_bytes).length := by
      simp [record_to_bytes_length]
    rw [hpre]
    have hrec := ih (pre ++ r.to_bytes) post hrs
    rw [List.append_assoc (pre ++ r.to_bytes)
      ((rs.map DnsRecord.to_bytes).flatten) post] at hrec
    rw [hrec]

/-- Claim C1: for every message whose names are uncompressed well-formed label
sequences containing no compression pointers, whose answers are A records, and
whose header counts match its sections, decoding the serialization returns the
message unchanged: `DnsMessage.from_bytes (m.to_bytes) = .ok m`. -/
theorem c1_parse_serialize_roundtrip (m : DnsMessage) (hm : wfMessage m) :
    DnsMessage.from_bytes m.to_bytes = .ok m := by
  obtain ⟨header, questions, answers⟩ := m
  simp only [wfMessage] at hm
  obtain ⟨hh, hqd, han, hq, ha⟩ := hm
  have hbexp : DnsMessage.to_bytes ⟨header, questions, answers⟩
      = header.to_bytes ++ ((questions.map DnsQuestion.to_bytes).flatten
          ++ (answers.map DnsRecord.to_bytes).flatten) := by
    simp [DnsMessage.to_bytes, List.append_assoc]
  unfold DnsMessage.from_bytes
  rw [hbexp]
  simp only [header_from_bytes_of_to_bytes header
    ((questions.map DnsQuestion.to_bytes).flatten
      ++ (answers.map DnsRecord.to_bytes).flatten) hh]
  rw [hqd]
  have hq12 := parseQuestions_of_to_bytes questions header.to_bytes
    ((answers.map DnsRecord.to_bytes).flatten) hq
  rw [header_to_bytes_length] at hq12
  rw [List.append_assoc header.to_bytes] at hq12
  simp only [hq12]
  rw [han]
  have ha2 := parseAnswers_of_to_bytes answers
    (header.to_bytes ++ (questions.map DnsQuestion.to_bytes).flatten) [] ha
  rw [List.append_nil] at ha2
  rw [List.append_assoc header.to_bytes] at ha2
  rw [show (header.to_bytes ++ (questions.map DnsQuestion.to_bytes).flatten).length
      = 12 + ((questions.map DnsQuestion.to_bytes).flatten).length from by
    simp [header_to_bytes_length]] at ha2
  rw [ha2]

/-- Concrete witness data for C1: a one-question, one-answer message for the
name `a`. -/
def wmQuestion : DnsQuestion := ⟨[1, 97, 0], 1, 1⟩

def wmAnswer : DnsRecord := ⟨[1, 97, 0], 1, 1, 60, [76, 76, 21, 21]⟩

def wm : DnsMessage := ⟨⟨0x1234, 0x0100, 1, 1, 0, 0⟩, [wmQuestion], [wmAnswer]⟩

lemma wfname_a : WfName [1, 97, 0] :=
  WfName.cons 1 [97] [0] (by omega) (by omega) rfl
    (by intro b hb; simp at hb; omega) WfName.nil

lemma wm_wf : wfMessage wm := by
  refine ⟨by decide, rfl, rfl, ?_, ?_⟩
  · intro q hq
    simp [wm, wmQuestion] at hq
    subst hq
    exact ⟨wfname_a, by decide, by decide⟩
  · intro r hr
    simp [wm, wmAnswer] at hr
    subst hr
    exact ⟨wfname_a, rfl, by decide, by decide, rfl⟩

theorem c1_roundtrip_witness :
    wfMessage wm ∧ DnsMessage.from_bytes wm.to_bytes = .ok wm :=
  ⟨wm_wf, c1_parse_serialize_roundtrip wm wm_wf⟩

/-- Claim C2: for every request header and 16-bit counts, the response header
`DnsHeader.new h q a` copies the id, sets QR, copies OPCODE and RD, zeroes
AA/TC/RA/Z, sets RCODE to 0 exactly when the request OPCODE is 0 and to 4
otherwise, stores the two counts, and zeroes nscount/arcount. -/
theorem c2_response_header_fields (h : DnsHeader) (q a : Nat) :
    (DnsHeader.new h q a).id = h.id ∧
    (DnsHeader.new h q a).flags >>> 15 &&& 1 = 1 ∧
    (DnsHeader.new h q a).flags >>> 11 &&& 0xF = h.flags >>> 11 &&& 0xF ∧
    (DnsHeader.new h q a).flags >>> 8 &&& 1 = h.flags >>> 8 &&& 1 ∧
    (DnsHeader.new h q a).flags >>> 10 &&& 1 = 0 ∧
    (DnsHeader.new h q a).flags >>> 9 &&& 1 = 0 ∧
    (DnsHeader.new h q a).flags >>> 7 &&& 1 = 0 ∧
    (DnsHeader.new h q a).flags >>> 4 &&& 7 = 0 ∧
    (DnsHeader.new h q a).flags &&& 0xF = (if h.flags >>> 11 &&& 0xF = 0 then 0 else 4) ∧
    (DnsHeader.new h q a).qdcount = q ∧ (DnsHeader.new h q a).ancount = a ∧
    (DnsHeader.new h q a).nscount = 0 ∧ (DnsHeader.new h q a).arcount = 0 := by
  have ho : h.flags >>> 11 &&& 0xF ≤ 15 := Nat.and_le_right
  have hr : h.flags >>> 8 &&& 1 ≤ 1 := Nat.and_le_right
  simp only [DnsHeader.new]
  set o := h.flags >>> 11 &&& 0xF with ho2
  set r := h.flags >>> 8 &&& 1 with hr2
  refine ⟨trivial, ?_, ?_, ?_, ?_, ?_, ?_, ?_, ?_, trivial, trivial, trivial, trivial⟩ <;>
    (interval_cases o <;> interval_cases r <;> decide)

/-- The QNAME encoding of `codecrafters.io`. -/
def cname : List Nat := [12, 99, 111, 100, 101, 99, 114, 97, 102, 116, 101, 114, 115, 2, 105, 111, 0]

/-- The concrete request datagram of scenario S1. -/
def c3Request : List Nat :=
  [0x12, 0x34, 0x01, 0x00, 0x00, 0x01, 0, 0, 0, 0, 0, 0] ++ cname ++ [0, 1, 0, 1]

/-- The decoded form of `c3Request`. -/
def c3RequestMsg : DnsMessage := ⟨⟨0x1234, 0x0100, 1, 0, 0, 0⟩, [⟨cname, 1, 1⟩], []⟩

/-- The response bytes the claim expects (flags `8000`). -/
def c3SpecBytes : List Nat :=
  [0x12, 0x34, 0x80, 0x00, 0, 1, 0, 1, 0, 0, 0, 0] ++ cname ++ [0, 1, 0, 1]
    ++ cname ++ [0, 1, 0, 1, 0, 0, 0, 60, 0, 4, 0x4C, 0x4C, 0x15, 0x15]

/-- The response bytes the code produces (flags `8100`: RD is copied from the
request, whose flags `0100` have RD set). -/
def c3ActualBytes : List Nat :=
  [0x12, 0x34, 0x81, 0x00, 0, 1, 0, 1, 0, 0, 0, 0] ++ cname ++ [0, 1, 0, 1]
    ++ cname ++ [0, 1, 0, 1, 0, 0, 0, 60, 0, 4, 0x4C, 0x4C, 0x15, 0x15]

/-- Claim C3 as stated is false: the self-answer response to the S1 request
serializes with flags bytes `81 00` (RD copied), not the claimed `80 00`. -/
theorem c3_counterexample :
    DnsMessage.from_bytes c3Request = .ok c3RequestMsg ∧
    (DnsMessage.new_response_from_request c3RequestMsg).to_bytes ≠ c3SpecBytes := by
  constructor
  · rfl
  · decide

/-- Claim C3, amended: for the S1 request datagram the self-answer response
serializes to header `12 34 81 00 00 01 00 01 00 00 00 00` (flags copy the
request's RD bit, so the third byte is `81`), the same question, and one answer
with the same name, type `0001`, class `0001`, TTL `0000003c`, RDLENGTH `0004`,
RDATA `4c 4c 15 15`. -/
theorem c3_selfanswer_scenario :
    DnsMessage.from_bytes c3Request = .ok c3RequestMsg ∧
    (DnsMessage.new_response_from_request c3RequestMsg).to_bytes = c3ActualBytes := by
  constructor
  · rfl
  · rfl

/-- Claim C4: if name decoding succeeds at a position `p` holding a two-byte
compression pointer, it consumes exactly 2 bytes and returns the same
uncompressed name bytes as decoding started at the pointer's 14-bit target
offset; and in general a decode that took at least one pointer reports
`first_jump_pos - start + 2` consumed bytes. -/
theorem c4_compression_pointer :
    (∀ (bytes : List Nat) (p : Nat) (nm : List Nat) (c : Nat),
        parse_domain_name bytes p = .ok (nm, c) →
        bytes.getD p 0 &&& 0xC0 = 0xC0 →
        c = 2 ∧ ∃ c', parse_domain_name bytes
          ((bytes.getD p 0 &&& 0x3F) <<< 8 ||| bytes.getD (p + 1) 0) = .ok (nm, c')) ∧
    (∀ (fuel : Nat) (bytes : List Nat) (p : Nat) (acc : List Nat) (j s f : Nat)
        (nm : List Nat) (c : Nat),
        parseDomainNameAux bytes fuel p acc j s f true = some (.ok (nm, c)) →
        c = f - s + 2) := by
  constructor
  · intro bytes p nm c hok hp
    unfold parse_domain_name at hok
    cases haux : parseDomainNameAux bytes (12 * (bytes.length + 1)) p [] 0 p 0 false with
    | none => rw [haux] at hok; exact Except.noConfusion hok
    | some r =>
      rw [haux] at hok
      subst hok
      obtain ⟨B, hB⟩ : ∃ k, 12 * (bytes.length + 1) = k + 1 :=
        ⟨12 * (bytes.length + 1) - 1, by omega⟩
      rw [hB] at haux
      simp only [parseDomainNameAux] at haux
      have hne : ¬ (bytes.getD p 0 = 0) := by
        intro h0
        rw [h0] at hp
        exact absurd hp (by decide)
      by_cases h1 : p ≥ bytes.length
      · rw [if_pos h1] at haux; exact (some_error_ne_some_ok haux).elim
      rw [if_neg h1, if_neg hne, if_pos hp] at haux
      by_cases h4 : p + 1 ≥ bytes.length
      · rw [if_pos h4] at haux; exact (some_error_ne_some_ok haux).elim
      rw [if_neg h4] at haux
      rw [if_neg (show ¬ ((0 : Nat) + 1 > 10) by omega)] at haux
      have hc2 := parseAux_consumed_compressed B bytes
        ((bytes.getD p 0 &&& 0x3F) <<< 8 ||| bytes.getD (p + 1) 0) [] 1 p p nm c haux
      refine ⟨by omega, ?_⟩
      obtain ⟨c', hc'⟩ := parseAux_name_invariant B bytes
        ((bytes.getD p 0 &&& 0x3F) <<< 8 ||| bytes.getD (p + 1) 0) [] 1 p p true nm c haux
        0 ((bytes.getD p 0 &&& 0x3F) <<< 8 ||| bytes.getD (p + 1) 0) 0 false (by omega)
      have hm := parseAux_fuel_mono B (12 * (bytes.length + 1)) (by omega) bytes
        ((bytes.getD p 0 &&& 0x3F) <<< 8 ||| bytes.getD (p + 1) 0) [] 0
        ((bytes.getD p 0 &&& 0x3F) <<< 8 ||| bytes.getD (p + 1) 0) 0 false _ hc'
      exact ⟨c', parse_domain_name_eq_of_aux hm⟩
  · intro fuel bytes p acc j s f nm c h
    exact parseAux_consumed_compressed fuel bytes p acc j s f nm c h

theorem c4_pointer_witness :
    parse_domain_name [1, 97, 0, 0xC0, 0] 3 = .ok ([1, 97, 0], 2) ∧
    [1, 97, 0, 0xC0, 0].getD 3 0 &&& 0xC0 = 0xC0 ∧
    (2 = 2 ∧ ∃ c', parse_domain_name [1, 97, 0, 0xC0, 0]
        (([1, 97, 0, 0xC0, 0].getD 3 0 &&& 0x3F) <<< 8 ||| [1, 97, 0, 0xC0, 0].getD (3 + 1) 0)
      = .ok ([1, 97, 0], c')) :=
  ⟨rfl, by decide,
   c4_compression_pointer.1 [1, 97, 0, 0xC0, 0] 3 [1, 97, 0] 2 rfl (by decide)⟩

/-- Claim C5: the forwarded-query bytes are the id, the flags with the QR bit
(bit 15) cleared, the qdcount, three zero 16-bit counts, then the question
serializations in order; the answers never contribute (the bytes coincide with
those of the same message with its answers removed, and everything past byte 12
is exactly the question section). -/
theorem c5_forwarded_query_bytes (m : DnsMessage)
    (hid : m.header.id < 65536) (hqd : m.header.qdcount < 65536) :
    m.to_forwarded_request_bytes
      = putU16 m.header.id ++ putU16 (m.header.flags &&& 0x7FFF) ++ putU16 m.header.qdcount ++
        putU16 0 ++ putU16 0 ++ putU16 0 ++ (m.questions.map DnsQuestion.to_bytes).flatten ∧
    m.to_forwarded_request_bytes
      = (DnsMessage.mk m.header m.questions []).to_forwarded_request_bytes ∧
    readU16 m.to_forwarded_request_bytes 0 = m.header.id ∧
    readU16 m.to_forwarded_request_bytes 2 = m.header.flags &&& 0x7FFF ∧
    (m.header.flags &&& 0x7FFF) >>> 15 = 0 ∧
    readU16 m.to_forwarded_request_bytes 4 = m.header.qdcount ∧
    readU16 m.to_forwarded_request_bytes 6 = 0 ∧
    readU16 m.to_forwarded_request_bytes 8 = 0 ∧
    readU16 m.to_forwarded_request_bytes 10 = 0 ∧
    m.to_forwarded_request_bytes.drop 12 = (m.questions.map DnsQuestion.to_bytes).flatten := by
  have hfl : m.header.flags &&& 0x7FFF ≤ 0x7FFF := Nat.and_le_right
  set b := m.to_forwarded_request_bytes with hbdef
  have hb' : b = putU16 m.header.id ++ (putU16 (m.header.flags &&& 0x7FFF) ++
      (putU16 m.header.qdcount ++ (putU16 0 ++ (putU16 0 ++ (putU16 0 ++
        (m.questions.map DnsQuestion.to_bytes).flatten))))) := by
    simp [hbdef, DnsMessage.to_forwarded_request_bytes, List.append_assoc]
  have hd0 : b.drop 0 = putU16 m.header.id ++ (putU16 (m.header.flags &&& 0x7FFF) ++
      (putU16 m.header.qdcount ++ (putU16 0 ++ (putU16 0 ++ (putU16 0 ++
        (m.questions.map DnsQuestion.to_bytes).flatten))))) := by
    rw [List.drop_zero, hb']
  have hd2 : b.drop 2 = putU16 (m.header.flags &&& 0x7FFF) ++
      (putU16 m.header.qdcount ++ (putU16 0 ++ (putU16 0 ++ (putU16 0 ++
        (m.questions.map DnsQuestion.to_bytes).flatten)))) := by
    rw [hb']; exact List.drop_left' (putU16_length _)
  have hd4 : b.drop 4 = putU16 m.header.qdcount ++ (putU16 0 ++ (putU16 0 ++ (putU16 0 ++
      (m.questions.map DnsQuestion.to_bytes).flatten))) := by
    have hdd := List.drop_drop 2 2 b
    rw [show (2 + 2 : Nat) = 4 from rfl] at hdd
    rw [← hdd, hd2, List.drop_left' (putU16_length _)]
  have hd6 : b.drop 6 = putU16 0 ++ (putU16 0 ++ (putU16 0 ++
      (m.questions.map DnsQuestion.to_bytes).flatten)) := by
    have hdd := List.drop_drop 2 4 b
    rw [show (4 + 2 : Nat) = 6 from rfl] at hdd
    rw [← hdd, hd4, List.drop_left' (putU16_length _)]
  have hd8 : b.drop 8 = putU16 0 ++ (putU16 0 ++
      (m.questions.map DnsQuestion.to_bytes).flatten) := by
    have hdd := List.drop_drop 2 6 b
    rw [show (6 + 2 : Nat) = 8 from rfl] at hdd
    rw [← hdd, hd6, List.drop_left' (putU16_length _)]
  have hd10 : b.drop 10 = putU16 0 ++ (m.questions.map DnsQuestion.to_bytes).flatten := by
    have hdd := List.drop_drop 2 8 b
    rw [show (8 + 2 : Nat) = 10 from rfl] at hdd
    rw [← hdd, hd8, List.drop_left' (putU16_length _)]
  have hd12 : b.drop 12 = (m.questions.map DnsQuestion.to_bytes).flatten := by
    have hdd := List.drop_drop 2 10 b
    rw [show (10 + 2 : Nat) = 12 from rfl] at hdd
    rw [← hdd, hd10, List.drop_left' (putU16_length _)]
  refine ⟨by rw [hb']; simp [List.append_assoc], rfl, ?_, ?_, ?_, ?_, ?_, ?_, ?_, hd12⟩
  · rw [readU16_of_drop_putU16 hd0, Nat.mod_eq_of_lt hid]
  · rw [readU16_of_drop_putU16 hd2, Nat.mod_eq_of_lt (by omega)]
  · rw [Nat.shiftRight_eq_div_pow]
    exact Nat.div_eq_of_lt (by norm_num; omega)
  · rw [readU16_of_drop_putU16 hd4, Nat.mod_eq_of_lt hqd]
  · rw [readU16_of_drop_putU16 hd6]
  · rw [readU16_of_drop_putU16 hd8]
  · rw [readU16_of_drop_putU16 hd10]

/-- Concrete message for the C5 witness: one question, one (ignored) answer. -/
def c5M : DnsMessage :=
  ⟨⟨0x1234, 0x8180, 1, 1, 0, 0⟩, [⟨[1, 97, 0], 1, 1⟩], [⟨[1, 97, 0], 1, 1, 60, [76, 76, 21, 21]⟩]⟩

theorem c5_forwarded_witness :
    c5M.header.id < 65536 ∧ c5M.header.qdcount < 65536 ∧
    (readU16 c5M.to_forwarded_request_bytes 2 = c5M.header.flags &&& 0x7FFF ∧
     (c5M.header.flags &&& 0x7FFF) >>> 15 = 0 ∧
     c5M.to_forwarded_request_bytes
       = (DnsMessage.mk c5M.header c5M.questions []).to_forwarded_request_bytes) :=
  ⟨by decide, by decide,
   (c5_forwarded_query_bytes c5M (by decide) (by decide)).2.2.2.1,
   (c5_forwarded_query_bytes c5M (by decide) (by decide)).2.2.2.2.1,
   (c5_forwarded_query_bytes c5M (by decide) (by decide)).2.1⟩

/-- Claim C6: in split mode (more than one question, one oracle outcome per
question), any successfully returned combined response keeps the request's
questions (hence its qdcount), its id, has flags `0x8000`, and its `ancount`
equals the number of collected answers (as a `u16`, exact whenever that count
fits in 16 bits); and the call fails with the no-upstream-answers error exactly
when the collected answer list is empty. -/
theorem c6_split_forward_invariants (request : DnsMessage) (replies : List (Option (List Nat)))
    (hsplit : 1 < request.questions.length)
    (hlen : replies.length = request.questions.length) :
    (∀ combined, DnsMessage.forward_query_split request replies = .ok combined →
      combined.questions = request.questions ∧
      combined.header.qdcount = request.header.qdcount ∧
      combined.header.id = request.header.id ∧
      combined.header.flags = 0x8000 ∧
      (combined.answers.length < 65536 →
        combined.header.ancount = combined.answers.length)) ∧
    (DnsMessage.forward_query_split request replies
        = .error "Failed to get any answers for the split queries"
      ↔ collectAnswers request.questions replies = []) := by
  simp only [DnsMessage.forward_query_split]
  by_cases he : (collectAnswers request.questions replies).isEmpty
  · rw [if_pos he]
    constructor
    · intro combined hc
      exact Except.noConfusion hc
    · simp only [List.isEmpty_iff] at he
      exact ⟨fun _ => he, fun _ => rfl⟩
  · rw [if_neg he]
    constructor
    · intro combined hc
      injection hc with hc2
      subst hc2
      refine ⟨rfl, rfl, rfl, rfl, fun hlt => ?_⟩
      exact Nat.mod_eq_of_lt hlt
    · constructor
      · intro hco
        exact Except.noConfusion hco
      · intro hc0
        exact absurd (by rw [hc0]; rfl) he

/-- Witness data for C6: two questions; the first sub-query yields one answer,
the second exchange fails. -/
def c6Req : DnsMessage := ⟨⟨7, 0x0100, 2, 0, 0, 0⟩, [⟨[0], 1, 1⟩, ⟨[1, 97, 0], 1, 1⟩], []⟩

def c6Reply : List Nat :=
  [0, 7, 0, 0, 0, 0, 0, 1, 0, 0, 0, 0, 0, 0, 1, 0, 1, 0, 0, 0, 0, 0, 0]

def c6Replies : List (Option (List Nat)) := [some c6Reply, none]

def c6Combined : DnsMessage :=
  ⟨⟨7, 0x8000, 2, 1, 0, 0⟩, [⟨[0], 1, 1⟩, ⟨[1, 97, 0], 1, 1⟩], [⟨[0], 1, 1, 0, []⟩]⟩

theorem c6_split_witness :
    1 < c6Req.questions.length ∧ c6Replies.length = c6Req.questions.length ∧
    DnsMessage.forward_query_split c6Req c6Replies = .ok c6Combined ∧
    c6Combined.questions = c6Req.questions ∧
    c6Combined.header.ancount = c6Combined.answers.length := by
  have h := (c6_split_forward_invariants c6Req c6Replies (by decide) (by decide)).1
    c6Combined rfl
  exact ⟨by decide, by decide, rfl, h.1, h.2.2.2.2 (by decide)⟩

/-- The response-building loop keeps exactly the questions whose raw type is 1
or above 1000, rewrites each to type 1 / class 1, and pairs it with an
A record for the same name. -/
lemma buildResponseSections_eq (qs : List DnsQuestion) :
    buildResponseSections qs
      = ((qs.filter fun q => decide (q.record_type = 1 ∨ 1000 < q.record_type)).map
          (fun q => ⟨q.name, 1, 1⟩),
         (qs.filter fun q => decide (q.record_type = 1 ∨ 1000 < q.record_type)).map
          (fun q => DnsRecord.new q.name [76, 76, 21, 21])) := by
  induction qs with
  | nil => rfl
  | cons q qs ih =>
    simp only [buildResponseSections, ih, List.filter_cons]
    by_cases hq : q.record_type = 1 ∨ q.record_type > 1000
    · rw [if_pos hq]
      simp [hq]
    · rw [if_neg hq]
      push_neg at hq
      rw [if_neg hq.1]
      simp [hq.1, hq.2, Nat.not_lt.mpr hq.2]

/-- Claim C7: in the self-response builder, every request question whose raw
type is 1 or above 1000 is kept — normalized to type 1, class 1 — and paired
with an A-record answer for its name; every other question is dropped from both
sections. -/
theorem c7_type_salvage (request_header : DnsHeader) (questions : List DnsQuestion) :
    (DnsMessage.new request_header questions).questions
      = (questions.filter fun q => decide (q.record_type = 1 ∨ 1000 < q.record_type)).map
          (fun q => ⟨q.name, 1, 1⟩) ∧
    (DnsMessage.new request_header questions).answers
      = (questions.filter fun q => decide (q.record_type = 1 ∨ 1000 < q.record_type)).map
          (fun q => DnsRecord.new q.name [76, 76, 21, 21]) := by
  simp only [DnsMessage.new, buildResponseSections_eq]
  exact ⟨trivial, trivial⟩

lemma parseQuestions_length :
    ∀ (n : Nat) (bytes : List Nat) (p : Nat) (qs : List DnsQuestion) (p' : Nat),
      parseQuestions bytes p n = .ok (qs, p') → qs.length = n := by
  intro n
  induction n with
  | zero =>
    intro bytes p qs p' h
    simp only [parseQuestions] at h
    injection h with h2
    injection h2 with ha hb
    subst ha
    rfl
  | succ n ih =>
    intro bytes p qs p' h
    simp only [parseQuestions] at h
    split at h
    · exact Except.noConfusion h
    · rename_i q c hq
      split at h
      · exact Except.noConfusion h
      · rename_i qs2 p2 hrec
        injection h with h2
        injection h2 with ha hb
        subst ha
        have hl := ih bytes (p + c) qs2 p2 hrec
        simp [hl]

/-- Claim C8: the message decoder parses exactly `qdcount` questions — on
success their number equals `qdcount`, and a failing question (like a failing
header) propagates its error — while an answer-record failure is not
propagated: the answer loop stops at the first failing record and the message
is returned with the answers decoded so far. -/
theorem c8_question_errors_propagate_answer_errors_not :
    (∀ (bytes : List Nat) (m : DnsMessage),
        DnsMessage.from_bytes bytes = .ok m → m.questions.length = m.header.qdcount) ∧
    (∀ (bytes : List Nat) (header : DnsHeader) (questions : List DnsQuestion) (position : Nat),
        DnsHeader.from_bytes bytes = .ok header →
        parseQuestions bytes 12 header.qdcount = .ok (questions, position) →
        DnsMessage.from_bytes bytes
          = .ok ⟨header, questions, parseAnswers bytes position header.ancount⟩) ∧
    (∀ (bytes : List Nat) (header : DnsHeader) (e : String),
        DnsHeader.from_bytes bytes = .ok header →
        parseQuestions bytes 12 header.qdcount = .error e →
        DnsMessage.from_bytes bytes = .error e) ∧
    (∀ (bytes : List Nat) (position n : Nat) (e : String),
        DnsRecord.from_bytes bytes position = .error e →
        parseAnswers bytes position (n + 1) = []) := by
  refine ⟨?_, ?_, ?_, ?_⟩
  · intro bytes m h
    unfold DnsMessage.from_bytes at h
    split at h
    · exact Except.noConfusion h
    · rename_i header hh
      split at h
      · exact Except.noConfusion h
      · rename_i questions position hq
        injection h with h2
        subst h2
        exact parseQuestions_length header.qdcount bytes 12 questions position hq
  · intro bytes header questions position hh hq
    simp only [DnsMessage.from_bytes, hh, hq]
  · intro bytes header e hh hq
    simp only [DnsMessage.from_bytes, hh, hq]
  · intro bytes position n e hr
    simp only [parseAnswers, hr]

/-- A datagram whose header announces one answer record (`ancount = 1`) but
whose body ends after the header: the record parse fails and is swallowed. -/
def c10Bytes : List Nat := [0, 1, 0, 0, 0, 0, 0, 1, 0, 0, 0, 0]

/-- The decoded form of `c10Bytes`: the wire header is kept although no answer
was decoded. -/
def c10Msg : DnsMessage := ⟨⟨1, 0, 0, 1, 0, 0⟩, [], []⟩

theorem c8_parse_witness :
    DnsMessage.from_bytes c10Bytes = .ok c10Msg ∧
    c10Msg.questions.length = c10Msg.header.qdcount ∧
    DnsHeader.from_bytes c10Bytes = .ok c10Msg.header ∧
    parseQuestions c10Bytes 12 c10Msg.header.qdcount = .ok ([], 12) ∧
    DnsMessage.from_bytes c10Bytes
      = .ok ⟨c10Msg.header, [], parseAnswers c10Bytes 12 c10Msg.header.ancount⟩ :=
  ⟨rfl, c8_question_errors_propagate_answer_errors_not.1 c10Bytes c10Msg rfl, rfl, rfl,
   c8_question_errors_propagate_answer_errors_not.2.1 c10Bytes c10Msg.header [] 12 rfl rfl⟩

/-- Claim C10: serialization always writes the header's `ancount` field (bytes
6-7) regardless of how many answers the section holds, and a decode in which an
answer record failed keeps the wire header, so `ancount` can strictly exceed
the number of decoded answers — re-serializing then claims more records than
are present (here: `ancount = 1`, empty answer section, 12 output bytes). -/
theorem c10_ancount_can_exceed_answers :
    (∀ m : DnsMessage, readU16 m.to_bytes 6 = m.header.ancount % 65536) ∧
    (DnsMessage.from_bytes c10Bytes = .ok c10Msg ∧
     c10Msg.header.ancount = 1 ∧ c10Msg.answers = [] ∧
     c10Msg.to_bytes.length = 12 ∧ readU16 c10Msg.to_bytes 6 = 1) := by
  constructor
  · intro m
    have hb' : m.to_bytes = putU16 m.header.id ++ (putU16 m.header.flags ++
        (putU16 m.header.qdcount ++ (putU16 m.header.ancount ++ (putU16 m.header.nscount ++
        (putU16 m.header.arcount ++ ((m.questions.map DnsQuestion.to_bytes).flatten ++
          (m.answers.map DnsRecord.to_bytes).flatten)))))) := by
      simp [DnsMessage.to_bytes, DnsHeader.to_bytes, List.append_assoc]
    have hd2 : m.to_bytes.drop 2 = putU16 m.header.flags ++
        (putU16 m.header.qdcount ++ (putU16 m.header.ancount ++ (putU16 m.header.nscount ++
        (putU16 m.header.arcount ++ ((m.questions.map DnsQuestion.to_bytes).flatten ++
          (m.answers.map DnsRecord.to_bytes).flatten))))) := by
      rw [hb']; exact List.drop_left' (putU16_length _)
    have hd4 : m.to_bytes.drop 4 = putU16 m.header.qdcount ++ (putU16 m.header.ancount ++
        (putU16 m.header.nscount ++ (putU16 m.header.arcount ++
        ((m.questions.map DnsQuestion.to_bytes).flatten ++
          (m.answers.map DnsRecord.to_bytes).flatten)))) := by
      have hdd := List.drop_drop 2 2 m.to_bytes
      rw [show (2 + 2 : Nat) = 4 from rfl] at hdd
      rw [← hdd, hd2, List.drop_left' (putU16_length _)]
    have hd6 : m.to_bytes.drop 6 = putU16 m.header.ancount ++ (putU16 m.header.nscount ++
        (putU16 m.header.arcount ++ ((m.questions.map DnsQuestion.to_bytes).flatten ++
          (m.answers.map DnsRecord.to_bytes).flatten))) := by
      have hdd := List.drop_drop 2 4 m.to_bytes
      rw [show (4 + 2 : Nat) = 6 from rfl] at hdd
      rw [← hdd, hd4, List.drop_left' (putU16_length _)]
    exact readU16_of_drop_putU16 hd6
  · exact ⟨rfl, rfl, rfl, rfl, rfl⟩

/-- Claim C9: name decoding is total.  The loop reaches a result (success or
error) within `12 * (|bytes| + 1)` iterations from any start position — at most
10 compression jumps are permitted (the guard `jumps + 1 > 10` fails the 11th),
and between jumps the position strictly increases while bounded by the buffer
length — so the iteration budget of `parse_domain_name` never runs out and any
larger budget yields the same result. -/
theorem c9_name_decoding_terminates :
    (∀ (bytes : List Nat) (start_pos : Nat),
      ∃ r, parseDomainNameAux bytes (12 * (bytes.length + 1)) start_pos [] 0 start_pos 0 false
        = some r) ∧
    (∀ (bytes : List Nat) (start_pos fuel : Nat),
      12 * (bytes.length + 1) ≤ fuel →
      parseDomainNameAux bytes fuel start_pos [] 0 start_pos 0 false
        = some (parse_domain_name bytes start_pos)) := by
  have key : ∀ (bytes : List Nat) (start_pos : Nat),
      ∃ r, parseDomainNameAux bytes (12 * (bytes.length + 1)) start_pos [] 0 start_pos 0 false
        = some r := by
    intro bytes start_pos
    refine parseAux_isSome (12 * (bytes.length + 1)) bytes start_pos [] 0 start_pos 0 false
      (by omega) ?_
    omega
  constructor
  · exact key
  · intro bytes start_pos fuel hf
    obtain ⟨r, hr⟩ := key bytes start_pos
    rw [parseAux_fuel_mono _ fuel hf bytes start_pos [] 0 start_pos 0 false r hr]
    rw [parse_domain_name_eq_of_aux hr]

theorem c9_termination_witness :
    12 * (([] : List Nat).length + 1) ≤ 13 ∧
    parseDomainNameAux [] 13 0 [] 0 0 0 false = some (parse_domain_name [] 0) :=
  ⟨by decide, c9_name_decoding_terminates.2 [] 0 13 (by decide)⟩
